import Mathlib

/-!
Shallow embedding of the socket framing layer of tiny-nix-ipc (src/lib.rs).

Bytes are `Nat` values; file descriptors are modelled together with their
observable close-on-exec flag. The kernel primitives (socketpair / sendmsg /
recvmsg on an AF_UNIX SOCK_SEQPACKET pair) are external collaborators with a
fixed interface; their datagram-delivery semantics are modelled after the
spec's External Interfaces section: one successful send produces one
datagram, and one successful receive delivers `min (payload length) capacity`
bytes of the pending datagram plus up to the ancillary capacity of
descriptors. Everything above that boundary is translated directly from
`src/lib.rs`.
-/

namespace TinyNixIpc

/-- A wire byte (values 0..255 arise from the encoders used here). -/
abbrev Byte := Nat

/-- A file descriptor as observed in a process's descriptor table: the raw
number together with its close-on-exec flag. -/
structure Fd where
  num : Int
  cloexec : Bool
deriving DecidableEq, Repr

/-- One SOCK_SEQPACKET datagram: payload bytes plus the sender's attached
descriptors, carrying the sender's own flag state (which must not influence
the flags of the received copies). -/
structure Datagram where
  payload : List Byte
  senderFds : List Fd
deriving DecidableEq, Repr

/-- The library's error kinds (the `errors` module of src/lib.rs): `Nix`
wraps a syscall errno, `WrongRecvLength` is the framing length/size
mismatch, `Cbor` wraps a codec decode error (the JSON and Bincode foreign
links behave identically and are represented by the same constructor). -/
inductive ErrorKind where
  | Nix (errno : Int)
  | WrongRecvLength
  | Cbor (e : Nat)
deriving DecidableEq, Repr

/-- Outcome of a Rust call in the model: normal return, `Err`, or a panic
(the latter is produced by `clone_from_slice` on a length mismatch). -/
inductive RustResult (α : Type) where
  | ok (a : α)
  | err (e : ErrorKind)
  | panicked
deriving DecidableEq, Repr

/-- Modelled from the spec: the `recvmsg` kernel primitive on a seqpacket
socket (external collaborator, spec section 6). Given total iovec capacity
`cap`, ancillary space for `N` descriptors, the CLOEXEC receive flag, and
the pending datagram `d`, a successful call delivers
`min (payload length) cap` bytes (filling the iovecs in order) and the first
`min N K` of the `K` attached descriptors; each delivered descriptor is a
fresh one whose close-on-exec flag equals the flag argument, regardless of
the sender's own flag state. -/
def recvmsgModel (cap N : Nat) (cloexecFlag : Bool) (d : Datagram) :
    Nat × List Byte × List Fd :=
  (min d.payload.length cap,
   d.payload.take (min d.payload.length cap),
   (d.senderFds.take N).map fun f => { num := f.num, cloexec := cloexecFlag })

/-- `Socket::recv_into_iovec` (src/lib.rs:93-107): calls `recvmsg` with
`MSG_CMSG_CLOEXEC`; if at least one descriptor arrived in ancillary data it
copies them into a `[RawFd; N]` with `clone_from_slice`, which panics unless
the delivered count equals `N`; otherwise it returns `None` for the
descriptors. `cap` is the total capacity of the scatter/gather list. -/
def recv_into_iovec (N cap : Nat) (d : Datagram) :
    RustResult (Nat × List Byte × Option (List Fd)) :=
  let r := recvmsgModel cap N true d
  let fds := r.2.2
  if 1 ≤ fds.length then
    if fds.length = N then .ok (r.1, r.2.1, some fds)
    else .panicked
  else .ok (r.1, r.2.1, none)

/-- `Socket::recv_into_slice` (src/lib.rs:116-119): receives into a single
caller-supplied buffer; the result's second component is the buffer's final
contents (the received prefix followed by the untouched tail). -/
def recv_into_slice (N : Nat) (buf : List Byte) (d : Datagram) :
    RustResult (Nat × List Byte × Option (List Fd)) :=
  match recv_into_iovec N buf.length d with
  | .ok (bytes, data, fds) => .ok (bytes, data ++ buf.drop bytes, fds)
  | .err e => .err e
  | .panicked => .panicked

/-- `Socket::recv_into_buf` (src/lib.rs:128-135): allocates a zeroed buffer
of `bufSize` bytes and receives into it; returns the byte count, the whole
buffer and the descriptors. -/
def recv_into_buf (N bufSize : Nat) (d : Datagram) :
    RustResult (Nat × List Byte × Option (List Fd)) :=
  recv_into_slice N (List.replicate bufSize 0) d

/-- Little-endian base-256 encoding of `n` on `k` bytes (the in-memory image
of an unsigned integer on the little-endian targets the crate's test suite
assumes). -/
def leEncode (k n : Nat) : List Byte :=
  (List.range k).map fun i => n / 256 ^ i % 256

/-- Little-endian base-256 decoding of a byte list. -/
def leDecode (bs : List Byte) : Nat :=
  bs.foldr (fun b acc => b + 256 * acc) 0

/-- The 8-byte (`u64`) length header image used by the framing layer. -/
def u64leEncode (n : Nat) : List Byte := leEncode 8 n

/-- `Socket::recv_into_buf_with_len` (src/lib.rs:145-157): receives into a
scatter list of an 8-byte length slot (initialised to zero) followed by a
zeroed buffer of `bufSize` bytes, decodes the slot as a `u64`, truncates the
buffer to that length (`Vec::truncate`, a no-op when the length exceeds the
buffer), and returns raw byte count, truncated buffer, declared length and
descriptors. No length consistency check is performed here. -/
def recv_into_buf_with_len (N bufSize : Nat) (d : Datagram) :
    RustResult (Nat × List Byte × Nat × Option (List Fd)) :=
  match recv_into_iovec N (8 + bufSize) d with
  | .ok (bytes, data, fds) =>
      let len := leDecode (data.take 8 ++ List.replicate (8 - bytes) 0)
      let buf := (data.drop 8 ++ List.replicate (bufSize - (bytes - 8)) 0).take len
      .ok (bytes, buf, len, fds)
  | .err e => .err e
  | .panicked => .panicked

/-- `Socket::recv_struct_raw` (src/lib.rs:167-173): receives into a buffer of
exactly the record's static size `S`; errors with `WrongRecvLength` when the
received byte count differs from `S`, otherwise reinterprets the buffer as
the record (modelled by its byte image). -/
def recv_struct_raw (S N : Nat) (d : Datagram) :
    RustResult (List Byte × Option (List Fd)) :=
  match recv_into_buf N S d with
  | .ok (bytes, buf, fds) =>
      if bytes = S then .ok (buf, fds)
      else .err .WrongRecvLength
  | .err e => .err e
  | .panicked => .panicked

/-- `Socket::recv_cbor` (src/lib.rs:202-208) — `recv_json` and `recv_bincode`
are textually identical up to the codec: length-prefixed receive, then the
framing check `bytes == len + 8`, then the external decoder (an external
collaborator, passed here as a function); a decoder failure is wrapped in
the codec error kind by the `?` conversion. -/
def recv_cbor {T : Type} (decode : List Byte → Except Nat T)
    (N bufSize : Nat) (d : Datagram) : RustResult (T × Option (List Fd)) :=
  match recv_into_buf_with_len N bufSize d with
  | .ok (bytes, buf, len, fds) =>
      if bytes = len + 8 then
        match decode buf with
        | .ok v => .ok (v, fds)
        | .error e => .err (.Cbor e)
      else .err .WrongRecvLength
  | .err e => .err e
  | .panicked => .panicked

/-- `Socket::send_iovec` (src/lib.rs:253-259): one `sendmsg` of the
concatenation of the buffers, with the descriptors (when given) attached as
one `ScmRights` control message; on success the seqpacket send produces one
datagram and reports the total byte count sent. -/
def send_iovec (bufs : List (List Byte)) (fds : Option (List Fd)) :
    Datagram × Nat :=
  let payload := bufs.flatten
  ({ payload := payload, senderFds := fds.getD [] }, payload.length)

/-- `Socket::send_slice` (src/lib.rs:264-267). -/
def send_slice (data : List Byte) (fds : Option (List Fd)) : Datagram × Nat :=
  send_iovec [data] fds

/-- `Socket::send_slice_with_len` (src/lib.rs:273-277): prefixes the payload
with the in-memory image of `data.len() as u64`. -/
def send_slice_with_len (data : List Byte) (fds : Option (List Fd)) :
    Datagram × Nat :=
  send_iovec [u64leEncode data.length, data] fds

/-- `Socket::send_struct_raw` (src/lib.rs:285-287): sends the record's byte
image (of its static size) as a raw slice. -/
def send_struct_raw (image : List Byte) (fds : Option (List Fd)) :
    Datagram × Nat :=
  send_slice image fds

/-- The `Socket` wrapper (src/lib.rs:45-47): owns exactly one descriptor. -/
structure Socket where
  fd : Fd
deriving DecidableEq, Repr

/-- A syscall observable in the model (only `close` matters for the
ownership claims). -/
inductive Syscall where
  | close (fd : Int)
deriving DecidableEq, Repr

/-- `Drop for Socket` (src/lib.rs:331-335): one `close(self.fd)` whose result
is discarded (`let _ = ...`); for every outcome of the close syscall the
destructor returns normally. The first component lists the syscalls issued. -/
def Socket.dropImpl (s : Socket) (_closeResult : Except Int Unit) :
    List Syscall × Unit :=
  ([Syscall.close s.fd.num], ())

/-- `IntoRawFd for Socket` (src/lib.rs:57-63): returns the raw descriptor and
`mem::forget`s the socket, so no destructor — hence no close — runs. -/
def into_raw_fd (s : Socket) : List Syscall × Int :=
  ([], s.fd.num)

/-- The two ways a `Socket` value's lifetime can end: it is dropped (with
some outcome of the close syscall) or consumed by `into_raw_fd`. Rust runs
exactly one of these, exactly once, on every path. -/
inductive Terminal where
  | dropped (closeResult : Except Int Unit)
  | consumedIntoRawFd

/-- The syscalls issued at the end of a socket's lifetime. -/
def terminalSyscalls (s : Socket) : Terminal → List Syscall
  | .dropped r => (Socket.dropImpl s r).1
  | .consumedIntoRawFd => (into_raw_fd s).1

/-- Modelled from the spec: the `socketpair` kernel primitive (external
collaborator, spec section 6) — on success it creates the two descriptors of
one connected bidirectional seqpacket channel; with the CLOEXEC creation
flag both descriptors have close-on-exec set. The syscall outcome (errno or
the pair of raw numbers) is an input of the model. -/
def socketpairSyscall (cloexecFlag : Bool) (outcome : Except Int (Int × Int)) :
    Except Int (Fd × Fd) :=
  outcome.map fun p =>
    ({ num := p.1, cloexec := cloexecFlag }, { num := p.2, cloexec := cloexecFlag })

/-- `Socket::new_socketpair` (src/lib.rs:75-79): calls `socketpair` with
`AF_UNIX`, `SOCK_SEQPACKET` and `SOCK_CLOEXEC`, wraps the two descriptors
(`from_raw_fd`), and converts a syscall failure into the `Nix` error kind. -/
def new_socketpair (outcome : Except Int (Int × Int)) :
    Except ErrorKind (Socket × Socket) :=
  match socketpairSyscall true outcome with
  | .ok (a, b) => .ok ({ fd := a }, { fd := b })
  | .error e => .error (.Nix e)

/-! ### Helper lemmas -/

theorem leEncode_length (k n : Nat) : (leEncode k n).length = k := by
  simp [leEncode]

theorem leDecode_cons (b : Byte) (l : List Byte) :
    leDecode (b :: l) = b + 256 * leDecode l := rfl

theorem leDecode_leEncode (k n : Nat) (h : n < 256 ^ k) :
    leDecode (leEncode k n) = n := by
  induction k generalizing n with
  | zero =>
      have hn : n = 0 := by simpa using h
      simp [leEncode, leDecode, hn]
  | succ k ih =>
      have hdiv : n / 256 < 256 ^ k := by
        rw [Nat.div_lt_iff_lt_mul (by norm_num : (0:Nat) < 256)]
        calc n < 256 ^ (k + 1) := h
          _ = 256 ^ k * 256 := pow_succ 256 k
      have hcons : leEncode (k + 1) n = n % 256 :: leEncode k (n / 256) := by
        rw [leEncode, List.range_succ_eq_map, List.map_cons, List.map_map]
        congr 1
        · simp
        · rw [leEncode]
          apply List.map_congr_left
          intro i _
          simp only [Function.comp_apply]
          rw [Nat.div_div_eq_div_mul, ← pow_succ']
      rw [hcons, leDecode_cons, ih _ hdiv]
      omega

theorem recv_into_iovec_ok_shape {N cap : Nat} {d : Datagram} {b : Nat}
    {data : List Byte} {fds : Option (List Fd)}
    (h : recv_into_iovec N cap d = .ok (b, data, fds)) :
    b = min d.payload.length cap ∧ data = d.payload.take b := by
  simp only [recv_into_iovec, recvmsgModel] at h
  split at h
  · split at h
    · rw [RustResult.ok.injEq, Prod.mk.injEq, Prod.mk.injEq] at h
      obtain ⟨hb, hdata, -⟩ := h
      exact ⟨hb.symm, hb ▸ hdata.symm⟩
    · exact absurd h (by simp)
  · rw [RustResult.ok.injEq, Prod.mk.injEq, Prod.mk.injEq] at h
    obtain ⟨hb, hdata, -⟩ := h
    exact ⟨hb.symm, hb ▸ hdata.symm⟩

theorem recv_into_iovec_no_fds {N cap : Nat} {d : Datagram}
    (hfds : d.senderFds = []) :
    recv_into_iovec N cap d
      = .ok (min d.payload.length cap,
             d.payload.take (min d.payload.length cap), none) := by
  simp [recv_into_iovec, recvmsgModel, hfds]

/-! ### Claim theorems -/

/-- C5: sending a byte sequence `B` raw (no header) with `send_slice` and
receiving it with `recv_into_slice` into a buffer of size
`buffer_capacity = buf.length` returns exactly
`min (B.length) buffer_capacity` bytes, the buffer's prefix becomes exactly
the first `min (B.length) buffer_capacity` bytes of `B` (tail untouched),
and a short read is an `ok` outcome, not an error. -/
theorem send_recv_raw_roundtrip (B buf : List Byte) (N : Nat) :
    recv_into_slice N buf (send_slice B none).1
      = .ok (min B.length buf.length,
             B.take (min B.length buf.length)
               ++ buf.drop (min B.length buf.length), none) := by
  have hd : (send_slice B none).1 = { payload := B, senderFds := [] } := by
    simp [send_slice, send_iovec]
  rw [recv_into_slice, hd, recv_into_iovec_no_fds rfl]

/-- C3: sending `B` length-prefixed (`send_slice_with_len`) puts
`8 + B.length` bytes on the wire, and receiving with total buffer capacity
at least `B.length + 8` (i.e. `B.length ≤ bufSize`, the receive capacity
being `8 + bufSize`) yields exactly payload `B` and declared length
`B.length`. The hypothesis `B.length < 2 ^ 64` reflects the `u64` header. -/
theorem send_recv_framed_roundtrip (B : List Byte) (N bufSize : Nat)
    (hlen : B.length < 2 ^ 64) (hcap : B.length ≤ bufSize) :
    (send_slice_with_len B none).2 = 8 + B.length ∧
    recv_into_buf_with_len N bufSize (send_slice_with_len B none).1
      = .ok (8 + B.length, B, B.length, none) := by
  have hlen8 : (u64leEncode B.length).length = 8 := leEncode_length 8 _
  have hd : (send_slice_with_len B none).1
      = { payload := u64leEncode B.length ++ B, senderFds := [] } := by
    simp [send_slice_with_len, send_iovec]
  have hplen : (u64leEncode B.length ++ B).length = 8 + B.length := by
    simp [hlen8]
  refine ⟨by simp [send_slice_with_len, send_iovec, hlen8], ?_⟩
  have hmin : min (u64leEncode B.length ++ B).length (8 + bufSize)
      = 8 + B.length := by
    rw [hplen]
    exact Nat.min_eq_left (by omega)
  have htake : (u64leEncode B.length ++ B).take (8 + B.length)
      = u64leEncode B.length ++ B := by
    rw [← hplen]
    exact List.take_length _
  rw [recv_into_buf_with_len, hd, recv_into_iovec_no_fds rfl]
  simp only [hmin, htake]
  have htake8 : (u64leEncode B.length ++ B).take 8 = u64leEncode B.length := by
    rw [← hlen8]
    exact List.take_left _ _
  have hdrop8 : (u64leEncode B.length ++ B).drop 8 = B := by
    rw [← hlen8]
    exact List.drop_left _ _
  have hdec : leDecode (u64leEncode B.length) = B.length :=
    leDecode_leEncode 8 _ (by calc B.length < 2 ^ 64 := hlen
      _ = 256 ^ 8 := by norm_num)
  have hsub : 8 - (8 + B.length) = 0 := by omega
  have hsub2 : 8 + B.length - 8 = B.length := by omega
  have htakeB : (B ++ List.replicate (bufSize - B.length) 0).take B.length
      = B := List.take_left _ _
  simp [hsub, hsub2, htake8, hdrop8, hdec, htakeB]

/-- C3 witness: the spec's concrete scenario — framed payload
`DE AD BE EF` travels as 12 bytes (8-byte header encoding 4, then the
payload) and is received back exactly with declared length 4. -/
theorem send_recv_framed_roundtrip_witness :
    (send_slice_with_len [0xDE, 0xAD, 0xBE, 0xEF] none).2 = 12 ∧
    recv_into_buf_with_len 0 4
        (send_slice_with_len [0xDE, 0xAD, 0xBE, 0xEF] none).1
      = .ok (12, [0xDE, 0xAD, 0xBE, 0xEF], 4, none) := by
  have h := send_recv_framed_roundtrip [0xDE, 0xAD, 0xBE, 0xEF] 0 4
    (by decide) (by decide)
  simpa using h

theorem recv_into_iovec_ok_some_fds_eq {N cap : Nat} {d : Datagram} {b : Nat}
    {data : List Byte} {fds : List Fd}
    (h : recv_into_iovec N cap d = .ok (b, data, some fds)) :
    fds = (d.senderFds.take N).map fun f => { num := f.num, cloexec := true } := by
  simp only [recv_into_iovec, recvmsgModel] at h
  split at h
  · split at h
    · rw [RustResult.ok.injEq, Prod.mk.injEq, Prod.mk.injEq,
        Option.some.injEq] at h
      obtain ⟨-, -, hf⟩ := h
      exact hf.symm
    · exact absurd h (by simp)
  · rw [RustResult.ok.injEq, Prod.mk.injEq, Prod.mk.injEq] at h
    obtain ⟨-, -, hf⟩ := h
    exact absurd hf (by simp)

/-- C4: fixed-size record transfer. First part: sending the byte image of a
record of static size `S = image.length` and receiving with expected size
`S` reproduces the exact byte image. Second part: whenever the received
byte count (`min (payload length) S`, what `recvmsg` reports for a buffer
of size `S`) differs from `S`, `recv_struct_raw` fails with
`WrongRecvLength` instead of returning a value. -/
theorem send_recv_struct_exactness :
    (∀ (image : List Byte) (N : Nat),
      recv_struct_raw image.length N (send_struct_raw image none).1
        = .ok (image, none)) ∧
    (∀ (S N : Nat) (d : Datagram), d.senderFds = [] →
      min d.payload.length S ≠ S →
      recv_struct_raw S N d = .err ErrorKind.WrongRecvLength) := by
  constructor
  · intro image N
    have hd : (send_struct_raw image none).1
        = { payload := image, senderFds := [] } := by
      simp [send_struct_raw, send_slice, send_iovec]
    rw [recv_struct_raw, recv_into_buf, recv_into_slice, hd,
      List.length_replicate, recv_into_iovec_no_fds rfl]
    simp
  · intro S N d hfds hne
    rw [recv_struct_raw, recv_into_buf, recv_into_slice,
      List.length_replicate, recv_into_iovec_no_fds hfds]
    simp [hne]

/-- C4 witness: a 2-byte image round-trips exactly; receiving a 1-byte
datagram while expecting a 3-byte record fails with `WrongRecvLength`. -/
theorem send_recv_struct_exactness_witness :
    recv_struct_raw 2 0 (send_struct_raw [7, 9] none).1 = .ok ([7, 9], none) ∧
    recv_struct_raw 3 0 { payload := [1], senderFds := [] }
      = .err ErrorKind.WrongRecvLength := by
  constructor
  · exact send_recv_struct_exactness.1 [7, 9] 0
  · exact send_recv_struct_exactness.2 3 0
      { payload := [1], senderFds := [] } rfl (by decide)

/-- C1 counterexample: the length-prefixed receive `recv_into_buf_with_len`
performs no mismatch check. Sending `DE AD BE EF` framed (12 wire bytes,
declared length 4) and receiving with buffer capacity 0 (total capacity
8 < 4 + 8) SUCCEEDS, silently returning the truncated (empty) payload with
declared length 4 — it does not fail with `WrongRecvLength` as claimed. -/
theorem recv_framed_no_check_counterexample :
    recv_into_buf_with_len 0 0
        (send_slice_with_len [0xDE, 0xAD, 0xBE, 0xEF] none).1
      = .ok (8, [], 4, none) := by decide

theorem recv_cbor_mismatch_helper {T : Type} (decode : List Byte → Except Nat T)
    {N bufSize : Nat} {d : Datagram} {bytes : Nat} {buf : List Byte}
    {len : Nat} {fds : Option (List Fd)}
    (hok : recv_into_buf_with_len N bufSize d = .ok (bytes, buf, len, fds))
    (hne : bytes ≠ len + 8) :
    recv_cbor decode N bufSize d = .err ErrorKind.WrongRecvLength := by
  rw [recv_cbor, hok]
  simp [hne]

theorem recv_into_buf_with_len_short {B : List Byte} {bufSize : Nat} (N : Nat)
    (hlen : B.length < 2 ^ 64) (hsmall : bufSize < B.length) :
    recv_into_buf_with_len N bufSize (send_slice_with_len B none).1
      = .ok (8 + bufSize, B.take bufSize, B.length, none) := by
  have hlen8 : (u64leEncode B.length).length = 8 := leEncode_length 8 _
  have hd : (send_slice_with_len B none).1
      = { payload := u64leEncode B.length ++ B, senderFds := [] } := by
    simp [send_slice_with_len, send_iovec]
  have hmin : min (u64leEncode B.length ++ B).length (8 + bufSize)
      = 8 + bufSize := by
    rw [List.length_append, hlen8]
    exact Nat.min_eq_right (by omega)
  have htake : (u64leEncode B.length ++ B).take (8 + bufSize)
      = u64leEncode B.length ++ B.take bufSize := by
    rw [List.take_append_eq_append_take, hlen8,
      List.take_of_length_le (by omega)]
    congr 2
    omega
  rw [recv_into_buf_with_len, hd, recv_into_iovec_no_fds rfl]
  simp only [hmin, htake]
  have htake8 : (u64leEncode B.length ++ B.take bufSize).take 8
      = u64leEncode B.length := by
    rw [← hlen8]
    exact List.take_left _ _
  have hdrop8 : (u64leEncode B.length ++ B.take bufSize).drop 8
      = B.take bufSize := by
    rw [← hlen8]
    exact List.drop_left _ _
  have hdec : leDecode (u64leEncode B.length) = B.length :=
    leDecode_leEncode 8 _ (by calc B.length < 2 ^ 64 := hlen
      _ = 256 ^ 8 := by norm_num)
  have hsub : 8 - (8 + bufSize) = 0 := by omega
  have hsub2 : 8 + bufSize - 8 = bufSize := by omega
  have htakeB : (B.take bufSize ++ List.replicate (bufSize - bufSize) 0).take
      B.length = B.take bufSize := by
    rw [Nat.sub_self, List.replicate_zero, List.append_nil]
    exact List.take_of_length_le (by simp)
  simp [hsub, hsub2, htake8, hdrop8, hdec, htakeB]

/-- C1 (amended): `recv_into_buf_with_len` itself never performs the
length-mismatch check (see the counterexample); the check lives in the
codec receive path. First part: for every codec receive
(`recv_cbor`/`recv_json`/`recv_bincode`), whenever the length-prefixed
receive reports `bytes ≠ declared + 8`, the operation fails with
`WrongRecvLength` before any payload is decoded. Second part: in
particular, when the receive buffer capacity is smaller than
`declared_length + 8` (here `bufSize < B.length` for a framed send of `B`),
the codec receive fails with `WrongRecvLength`. -/
theorem recv_codec_length_mismatch :
    (∀ (T : Type) (decode : List Byte → Except Nat T) (N bufSize : Nat)
       (d : Datagram) (bytes : Nat) (buf : List Byte) (len : Nat)
       (fds : Option (List Fd)),
      recv_into_buf_with_len N bufSize d = .ok (bytes, buf, len, fds) →
      bytes ≠ len + 8 →
      recv_cbor decode N bufSize d = .err ErrorKind.WrongRecvLength) ∧
    (∀ (T : Type) (decode : List Byte → Except Nat T) (N bufSize : Nat)
       (B : List Byte),
      B.length < 2 ^ 64 → bufSize < B.length →
      recv_cbor decode N bufSize (send_slice_with_len B none).1
        = .err ErrorKind.WrongRecvLength) := by
  constructor
  · intro T decode N bufSize d bytes buf len fds hok hne
    exact recv_cbor_mismatch_helper decode hok hne
  · intro T decode N bufSize B hlen hsmall
    exact recv_cbor_mismatch_helper decode
      (recv_into_buf_with_len_short N hlen hsmall) (by omega)

/-- C1 witness: a framed send of 4 bytes received by a codec receive with
buffer capacity 2 (total 10 < 12) fails with `WrongRecvLength`. -/
theorem recv_codec_length_mismatch_witness :
    recv_cbor (fun _ => (Except.error 0 : Except Nat Nat)) 0 2
        (send_slice_with_len [0xDE, 0xAD, 0xBE, 0xEF] none).1
      = .err ErrorKind.WrongRecvLength :=
  recv_codec_length_mismatch.2 Nat _ 0 2 [0xDE, 0xAD, 0xBE, 0xEF]
    (by decide) (by decide)

/-- C2 counterexample: a send with K = 1 attached descriptor followed by a
receive with descriptor capacity N = 2 ≥ K does NOT return exactly K
descriptors: `clone_from_slice` panics because the delivered count (1)
differs from the destination array length (2). -/
theorem recv_descriptor_overcapacity_counterexample :
    recv_into_iovec 2 4
        { payload := [1, 2, 3, 4],
          senderFds := [{ num := 5, cloexec := false }] }
      = .panicked := by decide

/-- C2 (amended): a send carrying K ≥ 1 descriptors followed by a receive
with descriptor capacity N = K (the crate's documented usage: `[RawFd; n]`
with `n` the number of descriptors you want to receive) returns exactly K
descriptors; and whenever a receive returns descriptors at all, their count
is at most N. (With N > K ≥ 1 the receive panics instead of returning.) -/
theorem recv_descriptor_count :
    (∀ (cap : Nat) (d : Datagram), 1 ≤ d.senderFds.length →
      ∃ fds, recv_into_iovec d.senderFds.length cap d
          = .ok (min d.payload.length cap,
                 d.payload.take (min d.payload.length cap), some fds)
        ∧ fds.length = d.senderFds.length) ∧
    (∀ (N cap : Nat) (d : Datagram) (bytes : Nat) (data : List Byte)
       (fds : List Fd),
      recv_into_iovec N cap d = .ok (bytes, data, some fds) →
      fds.length ≤ N) := by
  constructor
  · intro cap d h1
    refine ⟨d.senderFds.map fun f => { num := f.num, cloexec := true },
      ?_, by simp⟩
    simp [recv_into_iovec, recvmsgModel, h1]
  · intro N cap d bytes data fds h
    rw [recv_into_iovec_ok_some_fds_eq h]
    simp only [List.length_map, List.length_take]
    exact min_le_left _ _

/-- C2 witness: one descriptor sent, capacity one, exactly one received,
and the count is within the capacity. -/
theorem recv_descriptor_count_witness :
    ∃ fds, recv_into_iovec 1 4
        { payload := [1, 2], senderFds := [{ num := 5, cloexec := false }] }
        = .ok (2, [1, 2], some fds)
      ∧ fds.length = 1 ∧ fds.length ≤ 1 := by
  obtain ⟨fds, heq, hlen⟩ := recv_descriptor_count.1 4
    { payload := [1, 2], senderFds := [{ num := 5, cloexec := false }] }
    (by decide)
  exact ⟨fds, heq, hlen, recv_descriptor_count.2 1 4 _ _ _ fds heq⟩

/-- C6: every descriptor returned by a receive operation (they all go
through `recv_into_iovec`, which always passes `MSG_CMSG_CLOEXEC`) is
marked close-on-exec at the point of receipt, regardless of the sender's
own flag state on the original descriptor. -/
theorem recv_fds_cloexec (N cap : Nat) (d : Datagram) (bytes : Nat)
    (data : List Byte) (fds : List Fd)
    (h : recv_into_iovec N cap d = .ok (bytes, data, some fds)) :
    ∀ f ∈ fds, f.cloexec = true := by
  intro f hmem
  rw [recv_into_iovec_ok_some_fds_eq h] at hmem
  obtain ⟨g, -, rfl⟩ := List.mem_map.mp hmem
  rfl

/-- C6 witness: a descriptor sent with close-on-exec cleared arrives with
close-on-exec set. -/
theorem recv_fds_cloexec_witness :
    recv_into_iovec 1 1
        { payload := [9], senderFds := [{ num := 7, cloexec := false }] }
      = .ok (1, [9], some [{ num := 7, cloexec := true }]) ∧
    ∀ f ∈ [({ num := 7, cloexec := true } : Fd)], f.cloexec = true := by
  have heq : recv_into_iovec 1 1
      { payload := [9], senderFds := [{ num := 7, cloexec := false }] }
      = .ok (1, [9], some [{ num := 7, cloexec := true }]) := by decide
  exact ⟨heq, recv_fds_cloexec 1 1 _ 1 [9] _ heq⟩

/-- C7: when the framing check passes (`bytes = declared + 8`) but the
external decoder rejects the payload, the codec receive surfaces the codec
error kind (`Cbor`, and identically the JSON/Bincode foreign links), which
is distinct from the framing error kind `WrongRecvLength`. -/
theorem recv_codec_decode_error_distinct (T : Type)
    (decode : List Byte → Except Nat T) (N bufSize : Nat) (d : Datagram)
    (bytes : Nat) (buf : List Byte) (len : Nat) (fds : Option (List Fd))
    (e : Nat)
    (hok : recv_into_buf_with_len N bufSize d = .ok (bytes, buf, len, fds))
    (hframe : bytes = len + 8) (hdec : decode buf = .error e) :
    recv_cbor decode N bufSize d = .err (ErrorKind.Cbor e) ∧
    ErrorKind.Cbor e ≠ ErrorKind.WrongRecvLength := by
  refine ⟨?_, by simp⟩
  rw [recv_cbor, hok]
  simp [hframe, hdec]

/-- C7 witness: a well-framed 1-byte payload whose decoder fails yields the
codec error kind, not the framing kind. -/
theorem recv_codec_decode_error_distinct_witness :
    recv_cbor (fun _ => (Except.error 7 : Except Nat Nat)) 0 1
        (send_slice_with_len [1] none).1
      = .err (ErrorKind.Cbor 7) ∧
    ErrorKind.Cbor 7 ≠ ErrorKind.WrongRecvLength :=
  recv_codec_decode_error_distinct Nat _ 0 1
    (send_slice_with_len [1] none).1 9 [1] 1 none 7
    (by decide) (by decide) rfl

/-- C8: a socket's lifetime ends in exactly one of two ways. Dropping it
issues exactly one `close` of the owned descriptor, for every outcome of
the close syscall (the result is discarded, so destruction never reports an
error); consuming it with `into_raw_fd` returns the raw descriptor and
issues no `close`. On every path the owned descriptor is closed at most
once. -/
theorem socket_close_exactly_once (s : Socket) (t : Terminal) :
    (terminalSyscalls s t).count (Syscall.close s.fd.num) ≤ 1 ∧
    (∀ r, terminalSyscalls s (.dropped r) = [Syscall.close s.fd.num]) ∧
    terminalSyscalls s .consumedIntoRawFd = [] ∧
    (into_raw_fd s).2 = s.fd.num := by
  refine ⟨?_, fun r => rfl, rfl, rfl⟩
  cases t with
  | dropped r => simp [terminalSyscalls, Socket.dropImpl]
  | consumedIntoRawFd => simp [terminalSyscalls, into_raw_fd]

/-- C9: pair creation either surfaces the syscall errno as the channel
(`Nix`) error kind, or returns the two endpoints of the connected pair —
created with `SOCK_CLOEXEC`, so both descriptors have close-on-exec set. -/
theorem new_socketpair_cases (outcome : Except Int (Int × Int)) :
    (∃ e, outcome = .error e ∧
      new_socketpair outcome = .error (ErrorKind.Nix e)) ∨
    (∃ a b, outcome = .ok (a, b) ∧
      new_socketpair outcome
        = .ok ({ fd := { num := a, cloexec := true } },
               { fd := { num := b, cloexec := true } }) ∧
      ({ num := a, cloexec := true } : Fd).cloexec = true ∧
      ({ num := b, cloexec := true } : Fd).cloexec = true) := by
  cases outcome with
  | error e => exact .inl ⟨e, rfl, rfl⟩
  | ok p => exact .inr ⟨p.1, p.2, rfl, rfl, rfl, rfl⟩

/-- C10: the length-prefixed receive `recv_into_buf_with_len` leaves
mismatch detection entirely to the caller. First part: on any delivered
datagram without descriptors it succeeds, returning raw byte count,
payload vector and declared length. Second part: whenever it succeeds and
the declared header value exceeds the buffer capacity `bufSize`, the
`Vec::truncate` step is a no-op and the returned payload vector has length
exactly `bufSize`. -/
theorem recv_into_buf_with_len_no_check :
    (∀ (N bufSize : Nat) (d : Datagram), d.senderFds = [] →
      ∃ bytes buf len,
        recv_into_buf_with_len N bufSize d = .ok (bytes, buf, len, none)) ∧
    (∀ (N bufSize : Nat) (d : Datagram) (bytes : Nat) (buf : List Byte)
       (len : Nat) (fds : Option (List Fd)),
      recv_into_buf_with_len N bufSize d = .ok (bytes, buf, len, fds) →
      bufSize < len → buf.length = bufSize) := by
  constructor
  · intro N bufSize d hfds
    rw [recv_into_buf_with_len, recv_into_iovec_no_fds hfds]
    exact ⟨_, _, _, rfl⟩
  · intro N bufSize d bytes buf len fds h hlt
    rw [recv_into_buf_with_len] at h
    cases hi : recv_into_iovec N (8 + bufSize) d with
    | ok a =>
        obtain ⟨b, data, f⟩ := a
        rw [hi] at h
        simp only [RustResult.ok.injEq, Prod.mk.injEq] at h
        obtain ⟨hb, hbuf, hlen2, -⟩ := h
        obtain ⟨hbm, hdata⟩ := recv_into_iovec_ok_shape hi
        have hdl : data.length = b := by
          rw [hdata, List.length_take]
          omega
        have : buf.length
            = min len (data.length - 8 + (bufSize - (b - 8))) := by
          rw [← hbuf]
          simp [List.length_take, hlen2]
        rw [this, hdl]
        omega
    | err e => rw [hi] at h; exact absurd h (by simp)
    | panicked => rw [hi] at h; exact absurd h (by simp)

/-- C10 witness: a datagram declaring length 100 but carrying 3 payload
bytes into a 3-byte buffer succeeds with the full 3-byte vector — the
truncate-to-100 step is a no-op. -/
theorem recv_into_buf_with_len_no_check_witness :
    (∃ bytes buf len, recv_into_buf_with_len 0 3
        { payload := u64leEncode 100 ++ [1, 2, 3], senderFds := [] }
        = .ok (bytes, buf, len, none)) ∧
    ([1, 2, 3] : List Byte).length = 3 := by
  constructor
  · exact recv_into_buf_with_len_no_check.1 0 3
      { payload := u64leEncode 100 ++ [1, 2, 3], senderFds := [] } rfl
  · exact recv_into_buf_with_len_no_check.2 0 3
      { payload := u64leEncode 100 ++ [1, 2, 3], senderFds := [] }
      11 [1, 2, 3] 100 none (by decide) (by decide)

end TinyNixIpc
